import Mathlib

/-!
# A shallow embedding of `tar-parser` (`src/parser.rs`)

The source is a tar-archive decoder written with the nom 1.x macro
combinators (`chain!`, `tag!`, `take!`, `take_until!`, `map_res!`,
`take_str!`, `alt!`, `many0!`, `apply!`).  Bytes are modelled as `Nat`
(values `< 256` on real inputs), byte strings as `List Nat`, and the
nom result type `IResult` as `IRes` below.

nom 1.x semantics embedded here:
* `take!(n)` yields `Incomplete` when fewer than `n` bytes remain;
* `take_until!(t)` scans the whole remaining input for `t` and yields
  `Incomplete` when `t` never occurs;
* `tag!(t)` yields `Incomplete` when the input is shorter than `t`, an
  `Error` on a mismatch;
* `map_res!(p, f)` turns an `Err` of `f` into `Error(MapRes, i)` where
  `i` is the input handed to the whole `map_res!`;
* `alt!(a | b)` tries `b` only when `a` returns an `Error`; an
  `Incomplete` from `a` is returned as is;
* `many0!(p)` stops and succeeds with the collected results when `p`
  returns an `Error`, propagates an `Incomplete`, and errors with
  `ErrorKind::Many0` when `p` succeeds without consuming input.

Machine arithmetic: `u64`/`usize` values are `Nat` with an explicit
`% 2 ^ 64` at the operations where release-mode wrap-around matters
(the `$size - s.len()` subtraction of `take_str_eat_garbage!` and the
accumulator of `octal_to_u64`).
-/

namespace Tar

/-- `2 ^ 64`, the modulus of `u64`/`usize` arithmetic. -/
def U64 : Nat := 2 ^ 64

/-- The nom `ErrorKind`s this parser can produce. -/
inductive ErrKind where
  | tag
  | mapRes
  | many
  | alt
deriving DecidableEq, Repr

/-- nom's `IResult<&[u8], O>`: `Done(rest, value)`, `Error(Position(kind, pos))`
(`pos` is the input slice at which the error was raised), or `Incomplete`
(the `Needed` payload is not observed by any claim and is omitted). -/
inductive IRes (α : Type) where
  | done (rest : List Nat) (val : α)
  | error (k : ErrKind) (pos : List Nat)
  | incomplete
deriving DecidableEq, Repr

/-- Sequencing of parse results, as nom's `chain!` threads its steps. -/
def IRes.bind {α β : Type} (r : IRes α) (f : List Nat → α → IRes β) : IRes β :=
  match r with
  | .done i a => f i a
  | .error k p => .error k p
  | .incomplete => .incomplete

/-- `take!(n)`: consume exactly `n` bytes, `Incomplete` if fewer remain. -/
def takeN (n : Nat) (i : List Nat) : IRes (List Nat) :=
  if n ≤ i.length then .done (i.drop n) (i.take n) else .incomplete

/-- `tag!(t)`: expect the literal bytes `t` at the head of the input. -/
def tagB (t : List Nat) (i : List Nat) : IRes (List Nat) :=
  if t.length ≤ i.length then
    if i.take t.length = t then .done (i.drop t.length) t else .error .tag i
  else .incomplete

/-- Index of the first NUL byte of the input, if any. -/
def findNul : List Nat → Option Nat
  | [] => none
  | b :: bs => if b = 0 then some 0 else (findNul bs).map (· + 1)

/-- `take_until!("\0")`: consume up to (excluding) the first NUL anywhere in
the remaining input; `Incomplete` when the input holds no NUL at all. -/
def takeUntil0 (i : List Nat) : IRes (List Nat) :=
  match findNul i with
  | some k => .done (i.drop k) (i.take k)
  | none => .incomplete

/-- The ranges the continuation bytes of a UTF-8 sequence led by `b` must
lie in, or `none` when `b` cannot lead a sequence.  These are exactly the
ranges enforced by Rust's `std::str::from_utf8` (no overlong forms, no
surrogates, max U+10FFFF). -/
def contRanges (b : Nat) : Option (List (Nat × Nat)) :=
  if b < 0x80 then some []
  else if 0xC2 ≤ b ∧ b ≤ 0xDF then some [(0x80, 0xBF)]
  else if b = 0xE0 then some [(0xA0, 0xBF), (0x80, 0xBF)]
  else if (0xE1 ≤ b ∧ b ≤ 0xEC) ∨ (0xEE ≤ b ∧ b ≤ 0xEF) then
    some [(0x80, 0xBF), (0x80, 0xBF)]
  else if b = 0xED then some [(0x80, 0x9F), (0x80, 0xBF)]
  else if b = 0xF0 then some [(0x90, 0xBF), (0x80, 0xBF), (0x80, 0xBF)]
  else if 0xF1 ≤ b ∧ b ≤ 0xF3 then some [(0x80, 0xBF), (0x80, 0xBF), (0x80, 0xBF)]
  else if b = 0xF4 then some [(0x80, 0x8F), (0x80, 0xBF), (0x80, 0xBF)]
  else none

/-- UTF-8 validation as a byte-by-byte state machine: `pending` is the
list of ranges the next bytes must lie in to finish the current
character. -/
def validUtf8Aux : List (Nat × Nat) → List Nat → Bool
  | [], [] => true
  | _ :: _, [] => false
  | [], b :: rest =>
    match contRanges b with
    | none => false
    | some rs => validUtf8Aux rs rest
  | (lo, hi) :: ps, b :: rest => lo ≤ b && b ≤ hi && validUtf8Aux ps rest

/-- Validity of a byte sequence as UTF-8, as checked by Rust's
`std::str::from_utf8`. -/
def validUtf8 (l : List Nat) : Bool := validUtf8Aux [] l

/-- The wrapping `usize` subtraction `$size - s.len()` performed by
`take_str_eat_garbage!` (release-mode two's-complement wrap-around). -/
def wsub (a b : Nat) : Nat := (a + U64 - b % U64) % U64

/-- `take_str_eat_garbage!(size)`:
`chain!(s: map_res!(take_until!("\0"), from_utf8) ~ take!(size - s.len()), || s)`.
The NUL scan ranges over the whole remaining input; the follow-up `take!`
then skips `size - s.len()` bytes, a wrapping subtraction. -/
def take_str_eat_garbage (size : Nat) (i : List Nat) : IRes (List Nat) :=
  (takeUntil0 i).bind fun i1 s =>
    if validUtf8 s then
      (takeN (wsub size s.length) i1).bind fun i2 _ => .done i2 s
    else .error .mapRes i

/-- `octal_to_u64`, iterated over the bytes of the (valid UTF-8) string.
Rust iterates `char`s; on valid UTF-8 the byte-level check is equivalent:
every byte of a multi-byte character is `≥ 0x80`, hence rejected exactly
where the corresponding character (code point `≥ 0x80 > '7'`) is. The
`u64` accumulator wraps modulo `2 ^ 64`. -/
def octalToU64Aux (u : Nat) : List Nat → Except String Nat
  | [] => .ok u
  | c :: cs =>
    if c < 48 ∨ 55 < c then .error "invalid octal string received"
    else octalToU64Aux ((u * 8 + (c - 48)) % U64) cs

/-- `octal_to_u64(s)`. -/
def octal_to_u64 (s : List Nat) : Except String Nat := octalToU64Aux 0 s

/-- The `TypeFlag` enum of the source. -/
inductive TypeFlag where
  | normalFile
  | hardLink
  | symbolicLink
  | characterSpecial
  | blockSpecial
  | directory
  | fifo
  | contiguousFile
  | globalExtendedHeaderWithMetadata
  | extendedHeaderWithMetadataForNext
  | vendorSpecific
  | invalid
deriving DecidableEq, Repr

/-- `char_to_type_flag(c)`; the argument is `typeflag[0] as char`, a byte
cast to its code point, so the domain of interest is `0 ≤ c < 256`. -/
def char_to_type_flag (c : Nat) : TypeFlag :=
  if c = 48 ∨ c = 0 then .normalFile
  else if c = 49 then .hardLink
  else if c = 50 then .symbolicLink
  else if c = 51 then .characterSpecial
  else if c = 52 then .blockSpecial
  else if c = 53 then .directory
  else if c = 54 then .fifo
  else if c = 55 then .contiguousFile
  else if c = 103 then .globalExtendedHeaderWithMetadata
  else if c = 120 then .extendedHeaderWithMetadataForNext
  else if 65 ≤ c ∧ c ≤ 90 then .vendorSpecific
  else .invalid

/-- `UStarHeader<'a>`; `&str` fields are byte strings. -/
structure UStarHeader where
  magic : List Nat
  version : List Nat
  uname : List Nat
  gname : List Nat
  devmajor : Nat
  devminor : Nat
  prefix_ : List Nat
deriving DecidableEq, Repr

/-- `PosixHeader<'a>`. -/
structure PosixHeader where
  name : List Nat
  mode : List Nat
  uid : Nat
  gid : Nat
  size : Nat
  mtime : Nat
  chksum : List Nat
  typeflag : TypeFlag
  linkname : List Nat
  ustar : Option UStarHeader
deriving DecidableEq, Repr

/-- `TarEntry<'a>`. -/
structure TarEntry where
  header : PosixHeader
  contents : List Nat
deriving DecidableEq, Repr

/-- The byte literal `"ustar\0"`. -/
def ustarMagic : List Nat := [117, 115, 116, 97, 114, 0]

/-- The byte literal `"00"`. -/
def version00 : List Nat := [48, 48]

/-- `map_res!(take_str_eat_garbage!(w), octal_to_u64)`: the numeric header
fields. An `Err` of `octal_to_u64` becomes `Error(MapRes, i)`. -/
def takeOctal (w : Nat) (i : List Nat) : IRes Nat :=
  (take_str_eat_garbage w i).bind fun i1 s =>
    match octal_to_u64 s with
    | .ok v => .done i1 v
    | .error _ => .error .mapRes i

/-- `parse_ustar00`. -/
def parse_ustar00 (i : List Nat) : IRes (Option UStarHeader) :=
  (tagB version00 i).bind fun i1 _ =>
  (take_str_eat_garbage 32 i1).bind fun i2 uname =>
  (take_str_eat_garbage 32 i2).bind fun i3 gname =>
  (takeOctal 8 i3).bind fun i4 devmajor =>
  (takeOctal 8 i4).bind fun i5 devminor =>
  (take_str_eat_garbage 155 i5).bind fun i6 pfx =>
  (takeN 12 i6).bind fun i7 _ =>
  .done i7 (some { magic := ustarMagic, version := version00,
                   uname := uname, gname := gname,
                   devmajor := devmajor, devminor := devminor,
                   prefix_ := pfx })

/-- `parse_ustar`. -/
def parse_ustar (i : List Nat) : IRes (Option UStarHeader) :=
  (tagB ustarMagic i).bind fun i1 _ => parse_ustar00 i1

/-- `parse_posix`. -/
def parse_posix (i : List Nat) : IRes (Option UStarHeader) :=
  (takeN 255 i).bind fun i1 _ => .done i1 none

/-- `alt!(parse_ustar | parse_posix)` as it appears in `parse_header`:
the fallback runs only when `parse_ustar` returns an `Error`. -/
def ustarOrPosix (i : List Nat) : IRes (Option UStarHeader) :=
  match parse_ustar i with
  | .error _ _ => parse_posix i
  | r => r

/-- `parse_header`. -/
def parse_header (i : List Nat) : IRes PosixHeader :=
  (take_str_eat_garbage 100 i).bind fun i1 name =>
  (take_str_eat_garbage 8 i1).bind fun i2 mode =>
  (takeOctal 8 i2).bind fun i3 uid =>
  (takeOctal 8 i3).bind fun i4 gid =>
  (takeOctal 12 i4).bind fun i5 size =>
  (takeOctal 12 i5).bind fun i6 mtime =>
  (take_str_eat_garbage 8 i6).bind fun i7 chksum =>
  (takeN 1 i7).bind fun i8 typeflag =>
  (take_str_eat_garbage 100 i8).bind fun i9 linkname =>
  (ustarOrPosix i9).bind fun i10 ustar =>
  .done i10 { name := name, mode := mode, uid := uid, gid := gid,
              size := size, mtime := mtime, chksum := chksum,
              typeflag := char_to_type_flag (typeflag.headD 0),
              linkname := linkname, ustar := ustar }

/-- The padding computation of `parse_contents`:
`match size % 512 { 0 => 0, t => 512 - t }`. -/
def contentPadding (size : Nat) : Nat :=
  if size % 512 = 0 then 0 else 512 - size % 512

/-- `parse_contents(i, size)`: `take_str!(size)` (that is,
`map_res!(take!(size), from_utf8)`) followed by `take!(padding)`. -/
def parse_contents (size : Nat) (i : List Nat) : IRes (List Nat) :=
  (takeN size i).bind fun i1 contents =>
    if validUtf8 contents then
      (takeN (contentPadding size) i1).bind fun i2 _ => .done i2 contents
    else .error .mapRes i

/-- `parse_entry`. -/
def parse_entry (i : List Nat) : IRes TarEntry :=
  (parse_header i).bind fun i1 header =>
  (parse_contents header.size i1).bind fun i2 contents =>
  .done i2 { header := header, contents := contents }

/-- `many0!` with explicit fuel so that the definition is structurally
recursive (nom's loop terminates because every successful step consumes
input; the fuel `i.length + 1` supplied by `many0` below can therefore
never run out). nom stops with the collected results on an `Error`,
propagates an `Incomplete`, and raises `ErrorKind::Many0` when the inner
parser succeeds without consuming; for parsers that return suffixes of
their input (as all parsers here do) "without consuming" is exactly
"the remaining length did not decrease". -/
def many0Fuel (p : List Nat → IRes TarEntry) : Nat → List Nat → IRes (List TarEntry)
  | 0, _ => .incomplete
  | fuel + 1, i =>
    if i = [] then .done i []
    else
      match p i with
      | .error _ _ => .done i []
      | .incomplete => .incomplete
      | .done i1 o =>
        if i1.length < i.length then
          match many0Fuel p fuel i1 with
          | .done i2 os => .done i2 (o :: os)
          | .error k pos => .error k pos
          | .incomplete => .incomplete
        else .error .many i

/-- `many0!(parse_entry)` (generic in the inner parser). -/
def many0 (p : List Nat → IRes TarEntry) (i : List Nat) : IRes (List TarEntry) :=
  many0Fuel p (i.length + 1) i

/-- `filter_entries`. -/
def filter_entries (entries : List TarEntry) : Except String (List TarEntry) :=
  .ok (entries.filter fun e => !(e.header.name == []))

/-- `parse_tar`: `map_res!(many0!(parse_entry), filter_entries)`. -/
def parse_tar (i : List Nat) : IRes (List TarEntry) :=
  (many0 parse_entry i).bind fun i1 es =>
    match filter_entries es with
    | .ok v => .done i1 v
    | .error _ => .error .mapRes i

/-! ## The §6 layout of the specification

The round-trip claim compares the decoder against a byte buffer "laid
out per the §6 binary layout": each field sits in its fixed-width slot,
text fields are NUL-terminated and NUL-padded, numeric fields are
written as octal text, the content follows the 512-byte header and is
zero-padded to a 512-byte boundary.  The definitions below follow the
spec's words; they are the spec side of the refinement, not code of the
repository. -/

/-- Little-endian base-8 digits of `n` (explicit fuel keeps the
definition structurally recursive; `octalDigitsLE` supplies enough). -/
def octalDigitsFuel : Nat → Nat → List Nat
  | 0, _ => []
  | fuel + 1, n => if n = 0 then [] else n % 8 :: octalDigitsFuel fuel (n / 8)

/-- Little-endian base-8 digits of `n`. -/
def octalDigitsLE (n : Nat) : List Nat := octalDigitsFuel n n

/-- The octal text rendering of `n` (big-endian ASCII digits; `0` is
rendered as the empty string, which `octal_to_u64` reads back as `0`). -/
def octalRepr (n : Nat) : List Nat := (octalDigitsLE n).reverse.map (· + 48)

/-- A fixed-width slot per §6: the field bytes, a NUL terminator, then
NUL padding up to width `w` (meaningful when `s.length < w`). -/
def slotB (w : Nat) (s : List Nat) : List Nat :=
  s ++ 0 :: List.replicate (w - s.length - 1) 0

/-- A numeric slot per §6: the octal text of `n` in a width-`w` slot. -/
def octSlot (w n : Nat) : List Nat := slotB w (octalRepr n)

/-- §6 alignment padding: `(512 − size mod 512) mod 512`. -/
def specPad (size : Nat) : Nat := (512 - size % 512) % 512

/-- The field values from which a §6 buffer is built.  `typeflag` is the
raw byte of the typeflag slot; `size` is not a field of its own — the
size slot is written from `contents.length`. -/
structure EntryFields where
  name : List Nat
  mode : List Nat
  uid : Nat
  gid : Nat
  mtime : Nat
  chksum : List Nat
  typeflag : Nat
  linkname : List Nat
  ustar : Option (List Nat × List Nat × Nat × Nat × List Nat)
  contents : List Nat
deriving DecidableEq, Repr

/-- Bytes 257..511 of a §6 header: either the USTAR extension sub-block
(magic, version, uname, gname, devmajor, devminor, prefix, 12 padding
bytes) or 255 plain padding bytes. -/
def ustarBlockB : Option (List Nat × List Nat × Nat × Nat × List Nat) → List Nat
  | none => List.replicate 255 0
  | some (uname, gname, devmajor, devminor, pfx) =>
    ustarMagic ++ version00 ++ slotB 32 uname ++ slotB 32 gname ++
      octSlot 8 devmajor ++ octSlot 8 devminor ++ slotB 155 pfx ++
      List.replicate 12 0

/-- A 512-byte header laid out per §6 from the given field values. -/
def headerBytes (f : EntryFields) : List Nat :=
  slotB 100 f.name ++ slotB 8 f.mode ++ octSlot 8 f.uid ++ octSlot 8 f.gid ++
    octSlot 12 f.contents.length ++ octSlot 12 f.mtime ++ slotB 8 f.chksum ++
    [f.typeflag] ++ slotB 100 f.linkname ++ ustarBlockB f.ustar

/-- A full entry laid out per §6: header, content, alignment padding. -/
def entryBytes (f : EntryFields) : List Nat :=
  headerBytes f ++ f.contents ++ List.replicate (specPad f.contents.length) 0

/-- The `TarEntry` that the §6 buffer for `f` is expected to decode to. -/
def expectedEntry (f : EntryFields) : TarEntry :=
  { header :=
    { name := f.name, mode := f.mode, uid := f.uid, gid := f.gid,
      size := f.contents.length, mtime := f.mtime, chksum := f.chksum,
      typeflag := char_to_type_flag f.typeflag, linkname := f.linkname,
      ustar := f.ustar.map fun u =>
        { magic := ustarMagic, version := version00,
          uname := u.1, gname := u.2.1, devmajor := u.2.2.1,
          devminor := u.2.2.2.1, prefix_ := u.2.2.2.2 } },
    contents := f.contents }

/-- Whether a text field value fits a width-`w` §6 slot: valid text,
no interior NUL, and room for the NUL terminator. -/
def textOk (w : Nat) (s : List Nat) : Bool :=
  validUtf8 s && decide (0 ∉ s) && decide (s.length < w)

/-- Whether optional USTAR field values fit their §6 slots. -/
def ustarOk : Option (List Nat × List Nat × Nat × Nat × List Nat) → Bool
  | none => true
  | some (un, gn, dmaj, dmin, pfx) =>
    textOk 32 un && textOk 32 gn &&
      decide (dmaj < 8 ^ 7) && decide (dmin < 8 ^ 7) && textOk 155 pfx

/-- Whether all field values fit their §6 slots: text fields fit their
slot widths, numeric fields fit as octal text (7 digits in a width-8
slot, 11 digits in a width-12 slot), and the content is valid text. -/
def fieldsOk (f : EntryFields) : Bool :=
  textOk 100 f.name && textOk 8 f.mode &&
    decide (f.uid < 8 ^ 7) && decide (f.gid < 8 ^ 7) &&
    decide (f.contents.length < 8 ^ 11) && decide (f.mtime < 8 ^ 11) &&
    textOk 8 f.chksum && textOk 100 f.linkname &&
    validUtf8 f.contents && ustarOk f.ustar

/-! ## Basic lemmas about the combinators -/

@[simp] lemma IRes_bind_done {α β : Type} (i : List Nat) (a : α)
    (f : List Nat → α → IRes β) : (IRes.done i a).bind f = f i a := rfl

@[simp] lemma IRes_bind_error {α β : Type} (k : ErrKind) (p : List Nat)
    (f : List Nat → α → IRes β) : (IRes.error k p : IRes α).bind f = .error k p := rfl

@[simp] lemma IRes_bind_incomplete {α β : Type}
    (f : List Nat → α → IRes β) : (IRes.incomplete : IRes α).bind f = .incomplete := rfl

lemma takeN_append (n : Nat) (xs rest : List Nat) (h : xs.length = n) :
    takeN n (xs ++ rest) = .done rest xs := by
  subst h
  simp [takeN, List.take_left, List.drop_left]

lemma tagB_append (t rest : List Nat) : tagB t (t ++ rest) = .done rest t := by
  simp [tagB, List.take_left, List.drop_left]

lemma findNul_append (s t : List Nat) (h : 0 ∉ s) :
    findNul (s ++ 0 :: t) = some s.length := by
  induction s with
  | nil => simp [findNul]
  | cons a s ih =>
    simp only [List.mem_cons, not_or] at h
    simp [findNul, Ne.symm h.1, ih h.2]

lemma validUtf8_ascii (s : List Nat) (h : ∀ b ∈ s, b < 0x80) :
    validUtf8 s = true := by
  induction s with
  | nil => rfl
  | cons b s ih =>
    have hb : b < 0x80 := h b (List.mem_cons_self b s)
    show validUtf8Aux [] (b :: s) = true
    rw [validUtf8Aux]
    unfold contRanges
    rw [if_pos hb]
    exact ih fun x hx => h x (List.mem_cons_of_mem b hx)

lemma wsub_of_le (a b : Nat) (hb : b ≤ a) (ha : a < U64) : wsub a b = a - b := by
  have h0 : 0 < U64 := by norm_num [U64]
  have hbU : b < U64 := lt_of_le_of_lt hb ha
  unfold wsub
  rw [Nat.mod_eq_of_lt hbU]
  have : a + U64 - b = (a - b) + U64 := by omega
  rw [this, Nat.add_mod_right, Nat.mod_eq_of_lt (by omega)]

/-- The key slot lemma: on a §6 slot (NUL-free valid text, then a NUL,
then slot padding), `take_str_eat_garbage` returns the field value and
consumes exactly the slot. -/
lemma take_str_eat_garbage_slot (w : Nat) (s rest : List Nat)
    (hv : validUtf8 s = true) (hn : 0 ∉ s) (hl : s.length < w) (hw : w < U64) :
    take_str_eat_garbage w (slotB w s ++ rest) = .done rest s := by
  have hshape : slotB w s ++ rest =
      s ++ 0 :: (List.replicate (w - s.length - 1) 0 ++ rest) := by
    simp [slotB]
  rw [hshape]
  unfold take_str_eat_garbage takeUntil0
  rw [findNul_append s _ hn]
  simp only [List.take_left, List.drop_left, IRes_bind_done, hv, if_pos]
  rw [wsub_of_le w s.length (le_of_lt hl) hw]
  have hrep : (0 :: List.replicate (w - s.length - 1) 0).length = w - s.length := by
    simp; omega
  have : (0 :: (List.replicate (w - s.length - 1) 0 ++ rest)) =
      (0 :: List.replicate (w - s.length - 1) 0) ++ rest := by simp
  rw [this, takeN_append _ _ _ hrep]
  rfl

/-! ## Octal text round trip -/

lemma octalDigitsFuel_eq (fuel : Nat) : ∀ n : Nat, n ≤ fuel →
    octalDigitsFuel fuel n = Nat.digits 8 n := by
  induction fuel with
  | zero =>
    intro n hn
    have : n = 0 := by omega
    subst this
    simp [octalDigitsFuel]
  | succ fuel ih =>
    intro n hn
    by_cases h0 : n = 0
    · subst h0; simp [octalDigitsFuel]
    · have hpos : 0 < n := Nat.pos_of_ne_zero h0
      have hdiv : n / 8 < n := Nat.div_lt_self hpos (by norm_num)
      rw [octalDigitsFuel, if_neg h0, ih (n / 8) (by omega),
        Nat.digits_def' (by norm_num : 1 < 8) hpos]

lemma octalDigitsLE_eq (n : Nat) : octalDigitsLE n = Nat.digits 8 n :=
  octalDigitsFuel_eq n n le_rfl

lemma octalToU64Aux_map (ds : List Nat) : ∀ u : Nat, (∀ d ∈ ds, d < 8) →
    octalToU64Aux u (ds.map (· + 48)) =
      .ok (ds.foldl (fun v d => (v * 8 + d) % U64) u) := by
  induction ds with
  | nil => intro u _; rfl
  | cons d ds ih =>
    intro u hd
    have hdlt : d < 8 := hd d (List.mem_cons_self d ds)
    have hcond : ¬(d + 48 < 48 ∨ 55 < d + 48) := by omega
    rw [List.map_cons, octalToU64Aux, if_neg hcond, List.foldl_cons]
    have : d + 48 - 48 = d := by omega
    rw [this]
    exact ih _ fun x hx => hd x (List.mem_cons_of_mem d hx)

lemma foldl_mod (ds : List Nat) : ∀ u : Nat,
    ds.foldl (fun v d => (v * 8 + d) % U64) (u % U64) =
      (ds.foldl (fun v d => v * 8 + d) u) % U64 := by
  induction ds with
  | nil => intro u; rfl
  | cons d ds ih =>
    intro u
    rw [List.foldl_cons, List.foldl_cons]
    have h8 : (u % U64 * 8 + d) % U64 = (u * 8 + d) % U64 := by
      unfold U64
      omega
    rw [h8]
    exact ih (u * 8 + d)

lemma foldl_be (ds : List Nat) : ∀ u : Nat,
    ds.foldl (fun v d => v * 8 + d) u = u * 8 ^ ds.length + Nat.ofDigits 8 ds.reverse := by
  induction ds with
  | nil => intro u; simp [Nat.ofDigits]
  | cons d ds ih =>
    intro u
    rw [List.foldl_cons, ih (u * 8 + d), List.reverse_cons, Nat.ofDigits_append]
    simp [Nat.ofDigits_singleton, List.length_reverse, pow_succ]
    ring

lemma octalRepr_mem (n : Nat) : ∀ b ∈ octalRepr n, 48 ≤ b ∧ b ≤ 55 := by
  intro b hb
  simp only [octalRepr, List.mem_map, List.mem_reverse, octalDigitsLE_eq] at hb
  obtain ⟨d, hd, rfl⟩ := hb
  have : d < 8 := Nat.digits_lt_base (by norm_num) hd
  omega

lemma octalRepr_ascii (n : Nat) : validUtf8 (octalRepr n) = true :=
  validUtf8_ascii _ fun b hb => by have := octalRepr_mem n b hb; omega

lemma octalRepr_noNul (n : Nat) : 0 ∉ octalRepr n := by
  intro h
  have := octalRepr_mem n 0 h
  omega

lemma octal_to_u64_repr (n : Nat) (hn : n < U64) :
    octal_to_u64 (octalRepr n) = .ok n := by
  unfold octal_to_u64 octalRepr
  rw [octalToU64Aux_map _ 0
    (fun d hd => by
      rw [octalDigitsLE_eq] at hd
      exact Nat.digits_lt_base (by norm_num) (List.mem_reverse.mp hd))]
  have h0 : (0 : Nat) = 0 % U64 := rfl
  rw [h0, foldl_mod, foldl_be]
  rw [octalDigitsLE_eq, List.reverse_reverse, Nat.ofDigits_digits]
  simp [Nat.mod_eq_of_lt hn]

lemma octalRepr_len (n k : Nat) (h : n < 8 ^ k) : (octalRepr n).length ≤ k := by
  simp only [octalRepr, List.length_map, List.length_reverse, octalDigitsLE_eq]
  by_cases h0 : n = 0
  · subst h0; simp
  · by_contra hlen
    push_neg at hlen
    have h1 : 8 ^ (Nat.digits 8 n).length ≤ 8 * n :=
      Nat.base_pow_length_digits_le 8 n (by norm_num) h0
    have h2 : (8 : Nat) ^ (k + 1) ≤ 8 ^ (Nat.digits 8 n).length :=
      Nat.pow_le_pow_right (by norm_num) hlen
    rw [pow_succ] at h2
    have : 8 ^ k ≤ n := by
      have := le_trans h2 h1
      omega
    omega

lemma takeOctal_slot (w n : Nat) (rest : List Nat) (hw0 : 0 < w) (hw : w ≤ 21)
    (hn : n < 8 ^ (w - 1)) : takeOctal w (octSlot w n ++ rest) = .done rest n := by
  have hU : n < U64 := by
    have h1 : (8 : Nat) ^ (w - 1) ≤ 8 ^ 20 := Nat.pow_le_pow_right (by norm_num) (by omega)
    have h2 : (8 : Nat) ^ 20 < U64 := by norm_num [U64]
    omega
  have hlen : (octalRepr n).length < w := by
    have := octalRepr_len n (w - 1) hn
    omega
  have h21 : (21 : Nat) < U64 := by norm_num [U64]
  unfold takeOctal octSlot
  rw [take_str_eat_garbage_slot w (octalRepr n) rest (octalRepr_ascii n)
    (octalRepr_noNul n) hlen (by omega)]
  rw [IRes_bind_done, octal_to_u64_repr n hU]

/-! ## Round trip of the 512-byte header -/

lemma textOk_elim {w : Nat} {s : List Nat} (h : textOk w s = true) :
    validUtf8 s = true ∧ 0 ∉ s ∧ s.length < w := by
  simp only [textOk, Bool.and_eq_true, decide_eq_true_eq] at h
  exact ⟨h.1.1, h.1.2, h.2⟩

/-- On 255 padding bytes the USTAR variant fails with a tag `Error` and
the POSIX fallback consumes them. -/
lemma ustarOrPosix_padding (rest : List Nat) :
    ustarOrPosix (List.replicate 255 0 ++ rest) = .done rest none := by
  have hsplit : (List.replicate 255 0 : List Nat) =
      List.replicate 6 0 ++ List.replicate 249 0 := by
    rw [← List.replicate_add]
  have h6 : (List.replicate 6 0 : List Nat).length = ustarMagic.length := by
    rw [List.length_replicate]
    rfl
  have hlen : ustarMagic.length ≤ (List.replicate 255 0 ++ rest).length := by
    rw [List.length_append, List.length_replicate]
    show 6 ≤ 255 + rest.length
    omega
  have htake : (List.replicate 255 0 ++ rest).take ustarMagic.length =
      List.replicate 6 0 := by
    conv_lhs => rw [hsplit, List.append_assoc, ← h6]
    exact List.take_left _ _
  have hne : ¬((List.replicate 255 0 ++ rest).take ustarMagic.length = ustarMagic) := by
    rw [htake]
    decide
  have htag : tagB ustarMagic (List.replicate 255 0 ++ rest) =
      .error .tag (List.replicate 255 0 ++ rest) := by
    unfold tagB
    rw [if_pos hlen, if_neg hne]
  unfold ustarOrPosix parse_ustar
  rw [htag, IRes_bind_error]
  unfold parse_posix
  rw [takeN_append 255 _ _ (List.length_replicate 255 0), IRes_bind_done]

/-- The USTAR extension sub-block of §6 decodes to the populated
extension record. -/
lemma ustarOrPosix_block (un gn pfx : List Nat) (dmaj dmin : Nat) (rest : List Nat)
    (hun : textOk 32 un = true) (hgn : textOk 32 gn = true)
    (hdmaj : dmaj < 8 ^ 7) (hdmin : dmin < 8 ^ 7) (hpfx : textOk 155 pfx = true) :
    ustarOrPosix (ustarBlockB (some (un, gn, dmaj, dmin, pfx)) ++ rest) =
      .done rest (some { magic := ustarMagic, version := version00,
                         uname := un, gname := gn, devmajor := dmaj,
                         devminor := dmin, prefix_ := pfx }) := by
  obtain ⟨hunv, hun0, hunl⟩ := textOk_elim hun
  obtain ⟨hgnv, hgn0, hgnl⟩ := textOk_elim hgn
  obtain ⟨hpfxv, hpfx0, hpfxl⟩ := textOk_elim hpfx
  have hshape : ustarBlockB (some (un, gn, dmaj, dmin, pfx)) ++ rest =
      ustarMagic ++ (version00 ++ (slotB 32 un ++ (slotB 32 gn ++
        (octSlot 8 dmaj ++ (octSlot 8 dmin ++ (slotB 155 pfx ++
          (List.replicate 12 0 ++ rest))))))) := by
    simp [ustarBlockB, List.append_assoc]
  have hustar : parse_ustar (ustarBlockB (some (un, gn, dmaj, dmin, pfx)) ++ rest) =
      .done rest (some { magic := ustarMagic, version := version00,
                         uname := un, gname := gn, devmajor := dmaj,
                         devminor := dmin, prefix_ := pfx }) := by
    rw [hshape]
    unfold parse_ustar
    rw [tagB_append, IRes_bind_done]
    unfold parse_ustar00
    rw [tagB_append, IRes_bind_done,
      take_str_eat_garbage_slot 32 un _ hunv hun0 hunl (by norm_num [U64]),
      IRes_bind_done,
      take_str_eat_garbage_slot 32 gn _ hgnv hgn0 hgnl (by norm_num [U64]),
      IRes_bind_done,
      takeOctal_slot 8 dmaj _ (by norm_num) (by norm_num) hdmaj, IRes_bind_done,
      takeOctal_slot 8 dmin _ (by norm_num) (by norm_num) hdmin, IRes_bind_done,
      take_str_eat_garbage_slot 155 pfx _ hpfxv hpfx0 hpfxl (by norm_num [U64]),
      IRes_bind_done,
      takeN_append 12 _ _ (by simp), IRes_bind_done]
  unfold ustarOrPosix
  rw [hustar]

/-- A §6 header followed by anything decodes to exactly the encoded
field values. -/
lemma parse_header_roundtrip (f : EntryFields) (rest : List Nat)
    (h : fieldsOk f = true) :
    parse_header (headerBytes f ++ rest) = .done rest (expectedEntry f).header := by
  simp only [fieldsOk, Bool.and_eq_true, decide_eq_true_eq] at h
  obtain ⟨⟨⟨⟨⟨⟨⟨⟨⟨hname, hmode⟩, huid⟩, hgid⟩, hsize⟩, hmtime⟩, hchk⟩, hlink⟩, hcv⟩, hust⟩ := h
  obtain ⟨hnv, hn0, hnl⟩ := textOk_elim hname
  obtain ⟨hmv, hm0, hml⟩ := textOk_elim hmode
  obtain ⟨hcv2, hc0, hcl⟩ := textOk_elim hchk
  obtain ⟨hlv, hl0, hll⟩ := textOk_elim hlink
  have hshape : headerBytes f ++ rest =
      slotB 100 f.name ++ (slotB 8 f.mode ++ (octSlot 8 f.uid ++ (octSlot 8 f.gid ++
        (octSlot 12 f.contents.length ++ (octSlot 12 f.mtime ++ (slotB 8 f.chksum ++
          ([f.typeflag] ++ (slotB 100 f.linkname ++ (ustarBlockB f.ustar ++ rest))))))))) := by
    simp [headerBytes, List.append_assoc]
  unfold parse_header
  rw [hshape,
    take_str_eat_garbage_slot 100 f.name _ hnv hn0 hnl (by norm_num [U64]),
    IRes_bind_done,
    take_str_eat_garbage_slot 8 f.mode _ hmv hm0 hml (by norm_num [U64]),
    IRes_bind_done,
    takeOctal_slot 8 f.uid _ (by norm_num) (by norm_num) huid, IRes_bind_done,
    takeOctal_slot 8 f.gid _ (by norm_num) (by norm_num) hgid, IRes_bind_done,
    takeOctal_slot 12 f.contents.length _ (by norm_num) (by norm_num) hsize,
    IRes_bind_done,
    takeOctal_slot 12 f.mtime _ (by norm_num) (by norm_num) hmtime, IRes_bind_done,
    take_str_eat_garbage_slot 8 f.chksum _ hcv2 hc0 hcl (by norm_num [U64]),
    IRes_bind_done,
    takeN_append 1 [f.typeflag] _ (by simp), IRes_bind_done,
    take_str_eat_garbage_slot 100 f.linkname _ hlv hl0 hll (by norm_num [U64]),
    IRes_bind_done]
  match hu : f.ustar with
  | none =>
    rw [show ustarBlockB none = List.replicate 255 0 from rfl,
      ustarOrPosix_padding rest, IRes_bind_done]
    simp [expectedEntry, hu]
  | some (un, gn, dmaj, dmin, pfx) =>
    rw [hu] at hust
    simp only [ustarOk, Bool.and_eq_true, decide_eq_true_eq] at hust
    obtain ⟨⟨⟨⟨hun, hgn⟩, hdmaj⟩, hdmin⟩, hpfx⟩ := hust
    rw [ustarOrPosix_block un gn pfx dmaj dmin rest hun hgn hdmaj hdmin hpfx,
      IRes_bind_done]
    simp [expectedEntry, hu]

/-! ## Content extraction and the entry round trip -/

/-- The code's padding (`match` on `size % 512`) equals the spec's
`(512 − size mod 512) mod 512`. -/
lemma contentPadding_eq_specPad (size : Nat) : contentPadding size = specPad size := by
  unfold contentPadding specPad
  rcases Nat.eq_zero_or_pos (size % 512) with h | h
  · rw [if_pos h, h]
  · have hlt : size % 512 < 512 := Nat.mod_lt _ (by norm_num)
    rw [if_neg (by omega)]
    omega

lemma contentPadding_mod (size : Nat) : (size + contentPadding size) % 512 = 0 := by
  unfold contentPadding
  rcases Nat.eq_zero_or_pos (size % 512) with h | h
  · rw [if_pos h]
    omega
  · have hlt : size % 512 < 512 := Nat.mod_lt _ (by norm_num)
    rw [if_neg (by omega)]
    omega

/-- Valid-text content of the declared size, followed by its alignment
padding, is extracted exactly. -/
lemma parse_contents_roundtrip (c rest : List Nat) (hv : validUtf8 c = true) :
    parse_contents c.length
      (c ++ (List.replicate (contentPadding c.length) 0 ++ rest)) = .done rest c := by
  unfold parse_contents
  rw [takeN_append c.length c _ rfl, IRes_bind_done, if_pos hv,
    takeN_append (contentPadding c.length) _ _ (List.length_replicate _ 0),
    IRes_bind_done]

/-- The full §6 entry round trip: a buffer built from in-range field
values decodes to exactly those values. -/
lemma parse_entry_roundtrip (f : EntryFields) (rest : List Nat)
    (h : fieldsOk f = true) :
    parse_entry (entryBytes f ++ rest) = .done rest (expectedEntry f) := by
  have hcv : validUtf8 f.contents = true := by
    simp only [fieldsOk, Bool.and_eq_true] at h
    exact h.1.2
  have hshape : entryBytes f ++ rest = headerBytes f ++
      (f.contents ++ (List.replicate (contentPadding f.contents.length) 0 ++ rest)) := by
    simp [entryBytes, List.append_assoc, contentPadding_eq_specPad]
  unfold parse_entry
  rw [hshape, parse_header_roundtrip f _ h, IRes_bind_done]
  have hsize : (expectedEntry f).header.size = f.contents.length := rfl
  rw [hsize, parse_contents_roundtrip f.contents rest hcv, IRes_bind_done]
  rfl

/-! ## `many0` unfolding -/

lemma many0Fuel_congr (p : List Nat → IRes TarEntry) :
    ∀ f1 f2 i, i.length < f1 → i.length < f2 →
      many0Fuel p f1 i = many0Fuel p f2 i := by
  intro f1
  induction f1 with
  | zero => intro f2 i h1 _; omega
  | succ f1 ih =>
    intro f2 i h1 h2
    match f2, h2 with
    | f2 + 1, h2 =>
      rw [many0Fuel, many0Fuel]
      by_cases hnil : i = []
      · simp [hnil]
      · simp only [if_neg hnil]
        match p i with
        | .error k pos => rfl
        | .incomplete => rfl
        | .done i1 o =>
          by_cases hlt : i1.length < i.length
          · simp only [if_pos hlt]
            rw [ih f2 i1 (by omega) (by omega)]
          · simp only [if_neg hlt]

/-- All-octal strings decode to the wrapped base-8 accumulation. -/
lemma octalToU64Aux_ok (s : List Nat) : ∀ u : Nat, (∀ b ∈ s, 48 ≤ b ∧ b ≤ 55) →
    octalToU64Aux u s = .ok (s.foldl (fun v c => (v * 8 + (c - 48)) % U64) u) := by
  induction s with
  | nil => intro u _; rfl
  | cons c cs ih =>
    intro u h
    have hc := h c (List.mem_cons_self c cs)
    rw [octalToU64Aux, if_neg (by omega), List.foldl_cons]
    exact ih _ fun x hx => h x (List.mem_cons_of_mem c hx)

/-- A non-octal byte anywhere makes the decode fail with the constant
error message. -/
lemma octalToU64Aux_err (s : List Nat) : ∀ u b, b ∈ s → (b < 48 ∨ 55 < b) →
    octalToU64Aux u s = .error "invalid octal string received" := by
  induction s with
  | nil => intro u b hb _; exact absurd hb (List.not_mem_nil b)
  | cons c cs ih =>
    intro u b hb hbad
    by_cases hc : c < 48 ∨ 55 < c
    · rw [octalToU64Aux, if_pos hc]
    · rw [octalToU64Aux, if_neg hc]
      rcases List.mem_cons.mp hb with rfl | hmem
      · omega
      · exact ih _ b hmem hbad

/-- The defining one-step unfolding of `many0`, independent of fuel. -/
lemma many0_eq (p : List Nat → IRes TarEntry) (i : List Nat) :
    many0 p i =
      if i = [] then .done i []
      else
        match p i with
        | .error _ _ => .done i []
        | .incomplete => .incomplete
        | .done i1 o =>
          if i1.length < i.length then
            match many0 p i1 with
            | .done i2 os => .done i2 (o :: os)
            | .error k pos => .error k pos
            | .incomplete => .incomplete
          else .error .many i := by
  unfold many0
  rw [many0Fuel]
  by_cases hnil : i = []
  · simp [hnil]
  · simp only [if_neg hnil]
    match p i with
    | .error k pos => rfl
    | .incomplete => rfl
    | .done i1 o =>
      by_cases hlt : i1.length < i.length
      · simp only [if_pos hlt]
        rw [many0Fuel_congr p i.length (i1.length + 1) i1 hlt (by omega)]
      · simp only [if_neg hlt]

/-- When the inner parser errors on a non-empty input, `many0` stops and
succeeds with no results, leaving the input unconsumed. -/
lemma many0_error_first (p : List Nat → IRes TarEntry) (i : List Nat)
    (k : ErrKind) (pos : List Nat) (hi : i ≠ []) (he : p i = .error k pos) :
    many0 p i = .done i [] := by
  rw [many0_eq, if_neg hi, he]

/-- When the inner parser succeeds and consumes, `many0` prepends the
result and continues on the rest. -/
lemma many0_cons (p : List Nat → IRes TarEntry) (i i1 : List Nat) (e : TarEntry)
    (hi : i ≠ []) (hp : p i = .done i1 e) (hlt : i1.length < i.length) :
    many0 p i =
      match many0 p i1 with
      | .done i2 os => .done i2 (e :: os)
      | .error k pos => .error k pos
      | .incomplete => .incomplete := by
  rw [many0_eq, if_neg hi, hp]
  simp only [if_pos hlt]

/-- When the inner parser is `Incomplete` on a non-empty input, `many0`
propagates the `Incomplete`. -/
lemma many0_incomplete_first (p : List Nat → IRes TarEntry) (i : List Nat)
    (hi : i ≠ []) (he : p i = .incomplete) : many0 p i = .incomplete := by
  rw [many0_eq, if_neg hi, he]

/-- `EntryChain i es r`: starting from input `i`, `parse_entry` succeeds
`es.length` times in sequence, producing the entries `es` (in order) and
leaving the input `r`; each step consumes input, as every real success
of `parse_entry` does (a success always eats a full 512-byte header).
This is exactly the run of successful `many0!` iterations in front of
whatever happens at `r`. -/
inductive EntryChain : List Nat → List TarEntry → List Nat → Prop where
  | nil (i : List Nat) : EntryChain i [] i
  | cons {i i1 r : List Nat} {e : TarEntry} {es : List TarEntry}
      (hp : parse_entry i = .done i1 e) (hlt : i1.length < i.length)
      (hc : EntryChain i1 es r) : EntryChain i (e :: es) r

/-- Across any chain of successful entries, an `Error` at the end makes
`many0` stop there, succeeding with exactly the entries of the chain. -/
lemma many0_chain_error {i : List Nat} {es : List TarEntry} {r : List Nat}
    (hc : EntryChain i es r) : ∀ k p, r ≠ [] → parse_entry r = .error k p →
    many0 parse_entry i = .done r es := by
  induction hc with
  | nil i =>
    intro k p hr he
    exact many0_error_first parse_entry i k p hr he
  | @cons i i1 r e es hp hlt hc ih =>
    intro k p hr he
    have hi : i ≠ [] := by
      intro hh
      subst hh
      simp at hlt
    rw [many0_cons parse_entry i i1 e hi hp hlt, ih k p hr he]

/-- Across any chain of successful entries, an `Incomplete` at the end
is propagated by `many0`. -/
lemma many0_chain_incomplete {i : List Nat} {es : List TarEntry} {r : List Nat}
    (hc : EntryChain i es r) : r ≠ [] → parse_entry r = .incomplete →
    many0 parse_entry i = .incomplete := by
  induction hc with
  | nil i =>
    intro hr he
    exact many0_incomplete_first parse_entry i hr he
  | @cons i i1 r e es hp hlt hc ih =>
    intro hr he
    have hi : i ≠ [] := by
      intro hh
      subst hh
      simp at hlt
    rw [many0_cons parse_entry i i1 e hi hp hlt, ih hr he]

/-! ## Concrete fixtures -/

/-- Whether a parse result is a nom `Error`. -/
def isError {α : Type} : IRes α → Bool
  | .error _ _ => true
  | _ => false

/-- A minimal valid entry: name `"a"`, zero numeric fields, typeflag
`'0'`, no USTAR block, empty content (512 bytes in total). -/
def sampleFields : EntryFields :=
  { name := [97], mode := [], uid := 0, gid := 0, mtime := 0,
    chksum := [], typeflag := 48, linkname := [], ustar := none, contents := [] }

/-- An entry exercising every field, including the USTAR block and a
two-byte content (1024 bytes in total). -/
def sampleUstarFields : EntryFields :=
  { name := [97, 98], mode := [48, 55, 53], uid := 12, gid := 3, mtime := 99,
    chksum := [53], typeflag := 53, linkname := [108],
    ustar := some ([117], [103, 103], 5, 6, [112, 102]), contents := [104, 105] }

/-- A 512-byte header whose uid field holds the non-octal byte `'8'`. -/
def badUidHeader : List Nat :=
  slotB 100 [98] ++ slotB 8 [] ++ slotB 8 [56] ++ slotB 8 [] ++ slotB 12 [] ++
    slotB 12 [] ++ slotB 8 [] ++ [48] ++ slotB 100 [] ++ List.replicate 255 0

/-- The §6 buffer of `sampleFields` with the content replaced by the
single byte `0xFF`, which is not valid text. -/
def binaryContentFields : EntryFields :=
  { sampleFields with contents := [255] }

/-- `"123456789\0\0\0"`: a width-8 slot with no NUL inside it, but a NUL
later in the input. -/
def noNulSlotInput : List Nat := [49, 50, 51, 52, 53, 54, 55, 56, 57, 0, 0, 0]

/-- A 512-byte header whose uid slot (offsets 108..115) holds nine
non-NUL digits running past the slot boundary; the first NUL of the
remaining input only appears after them. -/
def runawayUidHeader : List Nat :=
  slotB 100 [97] ++ slotB 8 [] ++
    ([49, 50, 51, 52, 53, 54, 55, 56, 57] ++ List.replicate 395 0)

/-- 255 bytes whose first 8 are a well-formed USTAR magic and version but
whose remainder contains no NUL byte at all. -/
def unterminatedUstarBlock : List Nat :=
  ustarMagic ++ version00 ++ List.replicate 247 97

/-- Two content bytes `"hi"` followed by their 510 alignment padding
bytes. -/
def paddedContent : List Nat := [104, 105] ++ List.replicate 510 0

/-! ## Claim C1 -/

set_option maxRecDepth 1000000 in
/-- Claim C1 counterexample: on a buffer holding one valid entry followed
by a header whose uid field holds the non-octal byte `'8'`, the second
entry fails to decode with an `Error`, yet `parse_tar` does not return a
failure with zero entries — it succeeds with the first entry, leaving
the failing entry's 512 bytes unconsumed. -/
theorem tar_c1_counterexample :
    isError (parse_entry badUidHeader) = true ∧
    parse_tar (entryBytes sampleFields ++ badUidHeader) =
      .done badUidHeader [expectedEntry sampleFields] := by
  constructor
  · decide
  · decide

/-- Claim C1 (amended): at whatever position an entry fails to decode,
after any chain of successfully decoded entries, a nom `Error` does not
abort `parse_tar`: `many0` stops in front of the failing entry and
`parse_tar` succeeds with exactly the (filtered) entries decoded before
it, the failing entry's bytes left unconsumed.  Only an `Incomplete`
failure propagates as a failure of `parse_tar` (with zero entries). -/
theorem tar_c1_amended :
    (∀ i : List Nat, ∀ es : List TarEntry, ∀ r : List Nat, ∀ k : ErrKind,
      ∀ p : List Nat, EntryChain i es r → r ≠ [] → parse_entry r = .error k p →
      parse_tar i = .done r (es.filter fun x => !(x.header.name == []))) ∧
    (∀ i : List Nat, ∀ es : List TarEntry, ∀ r : List Nat,
      EntryChain i es r → r ≠ [] → parse_entry r = .incomplete →
      parse_tar i = .incomplete) := by
  constructor
  · intro i es r k p hc hr he
    unfold parse_tar
    rw [many0_chain_error hc k p hr he]
    rfl
  · intro i es r hc hr he
    unfold parse_tar
    rw [many0_chain_incomplete hc hr he]
    rfl

set_option maxRecDepth 1000000 in
/-- Witness for the amended C1: an archive of two valid entries followed
by a fragment whose name field is invalid text yields exactly the two
entries with the failing bytes unconsumed (an `Error` at the third
position), and one valid entry followed by an unterminated fragment
propagates `Incomplete`. -/
theorem tar_c1_witness :
    parse_tar (entryBytes sampleFields ++ (entryBytes sampleFields ++ [255, 0])) =
      .done [255, 0]
        ([expectedEntry sampleFields, expectedEntry sampleFields].filter
          fun x => !(x.header.name == [])) ∧
    parse_tar (entryBytes sampleFields ++ [49]) = .incomplete := by
  have hstep1 : parse_entry
      (entryBytes sampleFields ++ (entryBytes sampleFields ++ [255, 0])) =
      .done (entryBytes sampleFields ++ [255, 0])
        (expectedEntry sampleFields) := by decide
  have hstep2 : parse_entry (entryBytes sampleFields ++ [255, 0]) =
      .done [255, 0] (expectedEntry sampleFields) := by decide
  have hstep3 : parse_entry (entryBytes sampleFields ++ [49]) =
      .done [49] (expectedEntry sampleFields) := by decide
  have hchain1 : EntryChain
      (entryBytes sampleFields ++ (entryBytes sampleFields ++ [255, 0]))
      [expectedEntry sampleFields, expectedEntry sampleFields] [255, 0] :=
    EntryChain.cons hstep1 (by decide)
      (EntryChain.cons hstep2 (by decide) (EntryChain.nil [255, 0]))
  have hchain2 : EntryChain (entryBytes sampleFields ++ [49])
      [expectedEntry sampleFields] [49] :=
    EntryChain.cons hstep3 (by decide) (EntryChain.nil [49])
  constructor
  · exact tar_c1_amended.1 _ _ _ .mapRes [255, 0] hchain1
      (by decide) (by decide)
  · exact tar_c1_amended.2 _ _ _ hchain2 (by decide) (by decide)

/-! ## Claim C2 -/

set_option maxRecDepth 1000000 in
/-- Claim C2 counterexample: a buffer laid out per §6 from in-range field
values whose declared-size content is the single byte `0xFF` (not valid
text) does not decode to the corresponding `TarEntry`; `parse_entry`
fails with the text error at the content position. -/
theorem tar_c2_counterexample :
    parse_entry (entryBytes binaryContentFields) =
      .error .mapRes (255 :: List.replicate 511 0) ∧
    parse_entry (entryBytes binaryContentFields) ≠
      .done [] (expectedEntry binaryContentFields) := by
  constructor
  · decide
  · decide

/-- Claim C2 (amended): for field values that are valid NUL-free text
fitting their slots (leaving room for the terminator), numeric values
fitting their octal widths, and valid-text content, the §6 buffer
decodes via `parse_entry` to exactly those values. -/
theorem tar_c2_round_trip (f : EntryFields) (rest : List Nat)
    (h : fieldsOk f = true) :
    parse_entry (entryBytes f ++ rest) = .done rest (expectedEntry f) :=
  parse_entry_roundtrip f rest h

set_option maxRecDepth 1000000 in
/-- Witness for the amended C2 at an entry exercising every field,
including the USTAR block. -/
theorem tar_c2_witness :
    fieldsOk sampleUstarFields = true ∧
    parse_entry (entryBytes sampleUstarFields ++ []) =
      .done [] (expectedEntry sampleUstarFields) :=
  ⟨by decide, tar_c2_round_trip sampleUstarFields [] (by decide)⟩

/-! ## Claim C3 -/

/-- Claim C3: when the first NUL of the remaining input sits inside the
width-`n` slot (at index `k < n`, with at least `n` bytes available),
the extractor returns the `k` bytes before the NUL as text — erring with
the text error if they are not valid UTF-8 — and on success advances
exactly `n` bytes from the slot start, wherever the NUL sits. -/
theorem tar_c3_fixed_field (n : Nat) (i : List Nat) (k : Nat)
    (hfind : findNul i = some k) (hk : k < n) (hn : n ≤ i.length)
    (hU : n < U64) :
    (validUtf8 (i.take k) = true →
      take_str_eat_garbage n i = .done (i.drop n) (i.take k)) ∧
    (validUtf8 (i.take k) = false →
      take_str_eat_garbage n i = .error .mapRes i) := by
  have htu : takeUntil0 i = .done (i.drop k) (i.take k) := by
    unfold takeUntil0
    rw [hfind]
  have hklen : (i.take k).length = k := by
    rw [List.length_take]
    omega
  have hwsub : wsub n (i.take k).length = n - k := by
    rw [hklen]
    exact wsub_of_le n k (by omega) hU
  have hdrop : (i.drop k).drop (n - k) = i.drop n := by
    rw [List.drop_drop]
    congr 1
    omega
  have htn : takeN (n - k) (i.drop k) =
      .done (i.drop n) ((i.drop k).take (n - k)) := by
    unfold takeN
    rw [if_pos (by rw [List.length_drop]; omega), hdrop]
  constructor
  · intro hv
    unfold take_str_eat_garbage
    rw [htu]
    simp only [IRes_bind_done]
    rw [if_pos hv, hwsub, htn]
    rfl
  · intro hv
    unfold take_str_eat_garbage
    rw [htu]
    simp only [IRes_bind_done]
    rw [if_neg (by rw [hv]; exact Bool.false_ne_true)]

/-- Witness for C3 at the source's own unit-test input
`b"foobar\0\0\0\0baz"` with slot width 10. -/
theorem tar_c3_witness :
    take_str_eat_garbage 10 [102, 111, 111, 98, 97, 114, 0, 0, 0, 0, 98, 97, 122] =
      .done [98, 97, 122] [102, 111, 111, 98, 97, 114] := by
  have h := (tar_c3_fixed_field 10
    [102, 111, 111, 98, 97, 114, 0, 0, 0, 0, 98, 97, 122] 6
    (by decide) (by decide) (by decide) (by decide)).1 (by decide)
  exact h.trans (by decide)

/-! ## Claim C4 -/

set_option maxRecDepth 1000000 in
/-- Claim C4: the NUL scan is not bounded to the slot.  On
`"123456789\0\0\0"` with slot width 8, the match runs to the first NUL at
index 9 (longer than the slot), the advance `8 − 9` wraps to
`2 ^ 64 − 1`, and the extractor — and with it a whole header whose uid
slot has no NUL — fails instead of decoding the subsequent fields. -/
theorem tar_c4_unbounded_scan :
    findNul noNulSlotInput = some 9 ∧ 8 < 9 ∧
    wsub 8 9 = 2 ^ 64 - 1 ∧
    take_str_eat_garbage 8 noNulSlotInput = .incomplete ∧
    parse_header runawayUidHeader = .incomplete := by
  refine ⟨by decide, by decide, by decide, by decide, by decide⟩

/-! ## Claim C5 -/

set_option maxRecDepth 1000000 in
/-- Claim C5 counterexample: on a 255-byte block whose magic and version
match but whose remainder has no NUL at all, the USTAR variant fails
(`Incomplete`), and the combined decoder propagates that failure instead
of consuming the 255 bytes as padding — even though the POSIX fallback
would succeed on the very same input. -/
theorem tar_c5_counterexample :
    parse_ustar unterminatedUstarBlock = .incomplete ∧
    ustarOrPosix unterminatedUstarBlock = .incomplete ∧
    parse_posix unterminatedUstarBlock = .done [] none := by
  refine ⟨by decide, by decide, by decide⟩

/-- Claim C5 (amended): a well-formed USTAR sub-block decodes to the
populated extension record, consuming all 255 bytes; and whenever the
USTAR variant fails with a nom `Error` (e.g. a magic or version
mismatch), the fallback consumes 255 bytes and yields no extension
record without propagating that error.  (An `Incomplete` from the USTAR
variant is instead propagated, per the counterexample.) -/
theorem tar_c5_amended :
    (∀ un gn pfx : List Nat, ∀ dmaj dmin : Nat, ∀ rest : List Nat,
      textOk 32 un = true → textOk 32 gn = true → dmaj < 8 ^ 7 →
      dmin < 8 ^ 7 → textOk 155 pfx = true →
      ustarOrPosix (ustarBlockB (some (un, gn, dmaj, dmin, pfx)) ++ rest) =
        .done rest (some { magic := ustarMagic, version := version00,
                           uname := un, gname := gn, devmajor := dmaj,
                           devminor := dmin, prefix_ := pfx })) ∧
    (∀ i : List Nat, ∀ k : ErrKind, ∀ p : List Nat,
      parse_ustar i = .error k p → 255 ≤ i.length →
      ustarOrPosix i = .done (i.drop 255) none) := by
  constructor
  · intro un gn pfx dmaj dmin rest hun hgn hdmaj hdmin hpfx
    exact ustarOrPosix_block un gn pfx dmaj dmin rest hun hgn hdmaj hdmin hpfx
  · intro i k p he hlen
    unfold ustarOrPosix
    rw [he]
    show parse_posix i = .done (i.drop 255) none
    unfold parse_posix takeN
    rw [if_pos hlen]
    rfl

set_option maxRecDepth 1000000 in
/-- Witness for the amended C5: a concrete USTAR sub-block decodes to
its extension record, and a magic mismatch (255 zero bytes) falls back
to padding. -/
theorem tar_c5_witness :
    ustarOrPosix (ustarBlockB (some ([117], [103], 5, 6, [112])) ++ []) =
      .done [] (some { magic := ustarMagic, version := version00,
                       uname := [117], gname := [103], devmajor := 5,
                       devminor := 6, prefix_ := [112] }) ∧
    ustarOrPosix (List.replicate 255 0) =
      .done ((List.replicate 255 0).drop 255) none := by
  constructor
  · exact tar_c5_amended.1 [117] [103] [112] 5 6 [] (by decide) (by decide)
      (by decide) (by decide) (by decide)
  · exact tar_c5_amended.2 (List.replicate 255 0) .tag (List.replicate 255 0)
      (by decide) (by decide)

/-! ## Claim C6 -/

/-- Claim C6 counterexample: with declared size 1, the one-byte input
`[0xFF]` has fewer than `size + padding` bytes remaining, yet the
extractor fails with the text error (`InvalidText`), not with
`Incomplete` (`UnexpectedEndOfInput`). -/
theorem tar_c6_counterexample :
    ([255] : List Nat).length < 1 + contentPadding 1 ∧
    parse_contents 1 [255] = .error .mapRes [255] := by
  exact ⟨by decide, by decide⟩

/-- Claim C6 (amended): on success the extractor consumes exactly
`size + padding` bytes with `padding = (512 − size mod 512) mod 512`
(examples as in the spec, and `size + padding` is always a multiple of
512); when fewer than `size + padding` bytes remain it fails — with
`Incomplete` (`UnexpectedEndOfInput`) provided the available size-byte
content prefix is valid text, the text error taking precedence
otherwise. -/
theorem tar_c6_amended :
    (∀ size : Nat, ∀ i rest c : List Nat, parse_contents size i = .done rest c →
      c = i.take size ∧ rest = i.drop (size + contentPadding size) ∧
      size + contentPadding size ≤ i.length) ∧
    (∀ size : Nat, contentPadding size = (512 - size % 512) % 512) ∧
    contentPadding 0 = 0 ∧ contentPadding 10 = 502 ∧
    contentPadding 512 = 0 ∧ contentPadding 513 = 511 ∧
    (∀ size : Nat, (size + contentPadding size) % 512 = 0) ∧
    (∀ size : Nat, ∀ i : List Nat, i.length < size + contentPadding size →
      validUtf8 (i.take size) = true → parse_contents size i = .incomplete) := by
  refine ⟨?_, ?_, by decide, by decide, by decide, by decide,
    contentPadding_mod, ?_⟩
  · intro size i rest c h
    unfold parse_contents takeN at h
    by_cases h1 : size ≤ i.length
    · rw [if_pos h1] at h
      simp only [IRes_bind_done] at h
      by_cases h2 : validUtf8 (i.take size) = true
      · rw [if_pos h2] at h
        by_cases h3 : contentPadding size ≤ (i.drop size).length
        · rw [if_pos h3] at h
          simp only [IRes_bind_done] at h
          rw [List.length_drop] at h3
          injection h with hr hc
          refine ⟨hc.symm, ?_, by omega⟩
          rw [← hr, List.drop_drop]
        · rw [if_neg h3] at h
          simp at h
      · rw [if_neg h2] at h
        simp at h
    · rw [if_neg h1] at h
      simp at h
  · intro size
    exact contentPadding_eq_specPad size
  · intro size i hlen hv
    unfold parse_contents takeN
    by_cases h1 : size ≤ i.length
    · rw [if_pos h1]
      simp only [IRes_bind_done]
      rw [if_pos hv]
      rw [if_neg (by rw [List.length_drop]; omega)]
      rfl
    · rw [if_neg h1]
      rfl

set_option maxRecDepth 1000000 in
/-- Witness for the amended C6 at size 2 on `"hi"` plus its 510 padding
bytes, and for the `Incomplete` case at size 1 on a one-byte input. -/
theorem tar_c6_witness :
    ([104, 105] : List Nat) = paddedContent.take 2 ∧
    ([] : List Nat) = paddedContent.drop (2 + contentPadding 2) ∧
    2 + contentPadding 2 ≤ paddedContent.length ∧
    parse_contents 1 [104] = .incomplete := by
  obtain ⟨h1, h2, h3⟩ :=
    tar_c6_amended.1 2 paddedContent [] [104, 105] (by decide)
  exact ⟨h1, h2, h3, tar_c6_amended.2.2.2.2.2.2.2 1 [104] (by decide) (by decide)⟩

/-! ## Claim C7 -/

/-- Claim C7 counterexample: the octal decoder's error is the constant
message `"invalid octal string received"`; the errors for the inputs
`"8"` and `"a"` — with different offending characters — are identical,
so the error does not identify the offending character. -/
theorem tar_c7_counterexample :
    octal_to_u64 [56] = .error "invalid octal string received" ∧
    octal_to_u64 [97] = .error "invalid octal string received" ∧
    octal_to_u64 [56] = octal_to_u64 [97] := by
  exact ⟨rfl, rfl, rfl⟩

/-- Claim C7 (amended): the empty string decodes to 0; a string of
ASCII digits `'0'..'7'` decodes to the base-8 value accumulated as
`value = value*8 + digit` in `u64` arithmetic (`"756"` gives 494); a
string containing any character outside `'0'..'7'` fails with the
constant error `"invalid octal string received"`, which does not
identify the offending character. -/
theorem tar_c7_amended :
    octal_to_u64 [] = .ok 0 ∧
    octal_to_u64 [55, 53, 54] = .ok 494 ∧
    (∀ s : List Nat, (∀ b ∈ s, 48 ≤ b ∧ b ≤ 55) →
      octal_to_u64 s = .ok (s.foldl (fun v c => (v * 8 + (c - 48)) % U64) 0)) ∧
    (∀ s : List Nat, ∀ b : Nat, b ∈ s → (b < 48 ∨ 55 < b) →
      octal_to_u64 s = .error "invalid octal string received") := by
  refine ⟨rfl, rfl, ?_, ?_⟩
  · intro s h
    exact octalToU64Aux_ok s 0 h
  · intro s b hb hbad
    exact octalToU64Aux_err s 0 b hb hbad

/-- Witness for the amended C7 at `"47"`, `"1238"` and `"a"`. -/
theorem tar_c7_witness :
    octal_to_u64 [52, 55] = .ok 39 ∧
    octal_to_u64 [49, 50, 51, 56] = .error "invalid octal string received" ∧
    octal_to_u64 [97] = .error "invalid octal string received" := by
  refine ⟨?_, ?_, ?_⟩
  · exact (tar_c7_amended.2.2.1 [52, 55] (by decide)).trans rfl
  · exact tar_c7_amended.2.2.2 [49, 50, 51, 56] 56 (by decide) (by decide)
  · exact tar_c7_amended.2.2.2 [97] 97 (by decide) (by decide)

/-! ## Claim C8 -/

set_option maxRecDepth 1000000 in
/-- Claim C8: the type-flag decoder is total on byte values: `'0'` and
NUL map to NormalFile; `'1'..'7'` map in order to the seven listed
kinds; `'g'` and `'x'` to the two extended-header kinds; `'A'..'Z'` to
VendorSpecific; every other byte (including `'8'`, `'9'` and lowercase
letters other than `'g'`/`'x'`) to Invalid. -/
theorem tar_c8_type_flag :
    char_to_type_flag 48 = .normalFile ∧ char_to_type_flag 0 = .normalFile ∧
    char_to_type_flag 49 = .hardLink ∧ char_to_type_flag 50 = .symbolicLink ∧
    char_to_type_flag 51 = .characterSpecial ∧
    char_to_type_flag 52 = .blockSpecial ∧ char_to_type_flag 53 = .directory ∧
    char_to_type_flag 54 = .fifo ∧ char_to_type_flag 55 = .contiguousFile ∧
    char_to_type_flag 103 = .globalExtendedHeaderWithMetadata ∧
    char_to_type_flag 120 = .extendedHeaderWithMetadataForNext ∧
    (∀ c, c < 256 → 65 ≤ c → c ≤ 90 →
      char_to_type_flag c = .vendorSpecific) ∧
    (∀ c, c < 256 →
      ¬(c = 0 ∨ (48 ≤ c ∧ c ≤ 55) ∨ c = 103 ∨ c = 120 ∨ (65 ≤ c ∧ c ≤ 90)) →
      char_to_type_flag c = .invalid) := by
  refine ⟨by decide, by decide, by decide, by decide, by decide, by decide,
    by decide, by decide, by decide, by decide, by decide, by decide, by decide⟩

set_option maxRecDepth 1000000 in
/-- Witness for C8 at `'B'` (vendor range), `'8'`, `'9'` and `'a'`
(all Invalid). -/
theorem tar_c8_witness :
    char_to_type_flag 66 = .vendorSpecific ∧
    char_to_type_flag 56 = .invalid ∧ char_to_type_flag 57 = .invalid ∧
    char_to_type_flag 97 = .invalid := by
  refine ⟨?_, ?_, ?_, ?_⟩
  · exact tar_c8_type_flag.2.2.2.2.2.2.2.2.2.2.2.1 66 (by decide) (by decide)
      (by decide)
  · exact tar_c8_type_flag.2.2.2.2.2.2.2.2.2.2.2.2 56 (by decide) (by decide)
  · exact tar_c8_type_flag.2.2.2.2.2.2.2.2.2.2.2.2 57 (by decide) (by decide)
  · exact tar_c8_type_flag.2.2.2.2.2.2.2.2.2.2.2.2 97 (by decide) (by decide)

/-! ## Claim C9 -/

set_option maxRecDepth 1000000 in
/-- Claim C9: on a successful raw decode, `parse_tar` returns exactly
the raw entry sequence filtered of empty-named entries, in order; in
particular one valid entry followed by two all-zero 512-byte blocks
decodes to exactly that one entry. -/
theorem tar_c9_filter :
    (∀ i r : List Nat, ∀ es : List TarEntry,
      many0 parse_entry i = .done r es →
      parse_tar i = .done r (es.filter fun e => !(e.header.name == []))) ∧
    parse_tar (entryBytes sampleFields ++ List.replicate 1024 0) =
      .done [] [expectedEntry sampleFields] := by
  constructor
  · intro i r es h
    unfold parse_tar
    rw [h]
    rfl
  · decide

set_option maxRecDepth 1000000 in
/-- Witness for C9's universal part at a one-entry archive. -/
theorem tar_c9_witness :
    parse_tar (entryBytes sampleFields) =
      .done []
        ([expectedEntry sampleFields].filter fun e => !(e.header.name == [])) :=
  tar_c9_filter.1 (entryBytes sampleFields) [] [expectedEntry sampleFields]
    (by decide)

/-! ## Claim C10 -/

/-- Claim C10: `parse_tar` on the empty buffer succeeds with no entries,
and `filter_entries` always returns `Ok` — the post-parse filtering is
never itself a source of failure. -/
theorem tar_c10_empty_archive :
    parse_tar [] = .done [] [] ∧
    (∀ es : List TarEntry,
      filter_entries es = .ok (es.filter fun e => !(e.header.name == []))) :=
  ⟨rfl, fun _ => rfl⟩

/-- Witness for C10's universal part at a one-entry list. -/
theorem tar_c10_witness :
    filter_entries [expectedEntry sampleFields] = .ok [expectedEntry sampleFields] :=
  (tar_c10_empty_archive.2 [expectedEntry sampleFields]).trans rfl

end Tar
